import Mathlib

/-!
# Verification of the cursor-stats usage/polling core

Shallow embedding of the algorithmic core of the `cursor-stats` extension
(billing-line parsing, percentage formatting, billing-period selection, the
auth-retry and cooldown control flow of `updateStats`, and the
`AuthService` session-token functions), together with theorems settling the
frozen claims about the natural-language specification.

Conventions of the embedding:
* JS numbers are modelled as exact rationals (`ℚ`); the special values
  `NaN`/`Infinity`, where a claim depends on them, are modelled by the
  explicit type `JsNum` below.
* `Math.round(x)` and the rounding used by `Number.prototype.toFixed` are
  `⌊x + 1/2⌋` (for `toFixed` applied to the absolute value first, mirroring
  the ECMAScript algorithm, which negates before rounding).
* JS strings are modelled as `String`/`List Char`; the regular expressions of
  the source are unfolded into explicit prefix/scan functions, justified in
  the comments at each definition (the patterns involved never benefit from
  backtracking, so greedy quantifiers read as "maximal run").
-/

set_option maxRecDepth 40000

namespace CursorStats

/-! ## JS numeric primitives -/

/-- `Math.round` / the `toFixed` integer choice: nearest integer, ties toward
the larger integer, i.e. `⌊q + 1/2⌋`. -/
def roundHalfUp (q : ℚ) : ℤ := ⌊q + 1 / 2⌋

/-- `Math.max` on finite JS numbers. -/
def jsMax (a b : ℚ) : ℚ := if a ≤ b then b else a

/-- `Math.min` on finite JS numbers. -/
def jsMin (a b : ℚ) : ℚ := if a ≤ b then a else b

/-- `Math.abs` on finite JS numbers. -/
def jsAbs (a : ℚ) : ℚ := if a < 0 then -a else a

/-- Render a natural number with `d` digits after a decimal point
(the non-negative core of `Number.prototype.toFixed`): `m` is the value
scaled by `10 ^ d`. -/
def toFixedNat (m : ℕ) (d : ℕ) : String :=
  if d = 0 then toString m
  else
    let frac := toString (m % 10 ^ d)
    toString (m / 10 ^ d) ++ "." ++ String.mk (List.replicate (d - frac.length) '0') ++ frac

/-- Model of `Number.prototype.toFixed(d)` on an exact rational: the
ECMAScript algorithm renders `-x` with a leading sign for negative `x` and
picks the integer `n` closest to `x·10^d`, ties toward the larger `n`. -/
def jsToFixed (q : ℚ) (d : ℕ) : String :=
  if q < 0 then "-" ++ toFixedNat (roundHalfUp (-q * 10 ^ d)).toNat d
  else toFixedNat (roundHalfUp (q * 10 ^ d)).toNat d

/-- Model of `.replace(/\.?0+$/, '')` from `percentageFormatter.ts`: the
regex removes the maximal trailing run of `'0'` characters together with a
`'.'` immediately preceding that run (and matches nothing when the string
does not end in `'0'`). -/
def stripTrailingZeros (s : String) : String :=
  let cs := s.toList
  if cs.getLast? = some '0' then
    let noZeros := (cs.reverse.dropWhile (fun c => c = '0')).reverse
    if noZeros.getLast? = some '.' then String.mk noZeros.dropLast else String.mk noZeros
  else s

/-! ## `src/utils/percentageFormatter.ts` -/

/-- The loop locals `factor = Math.pow(10, decimals)` and
`rounded = Math.round(percentage * factor) / factor` of
`formatPercentageIntelligent`. -/
def roundToDec (percentage : ℚ) (d : ℕ) : ℚ := (roundHalfUp (percentage * 10 ^ d) : ℚ) / 10 ^ d

/-- The `for (let decimals = 1; decimals <= maxDecimals; ...)` loop of
`formatPercentageIntelligent`, iterating over the list of candidate decimal
counts; the empty-list case is the fall-through
`percentage.toFixed(maxDecimals).replace(/\.?0+$/, '')`. -/
def fpiTryDecimals (percentage : ℚ) (maxDecimals : ℕ) : List ℕ → String
  | [] => stripTrailingZeros (jsToFixed percentage maxDecimals)
  | d :: ds =>
    if jsAbs (roundToDec percentage d - percentage) < 1 / 10 ^ 10 then
      stripTrailingZeros (jsToFixed (roundToDec percentage d) d)
    else fpiTryDecimals percentage maxDecimals ds

/-- `formatPercentageIntelligent(percentage, maxDecimals)` from
`src/utils/percentageFormatter.ts` (the source defaults `maxDecimals` to 3;
here it is always passed explicitly). -/
def formatPercentageIntelligent (percentage : ℚ) (maxDecimals : ℕ) : String :=
  if percentage = (⌊percentage⌋ : ℚ) then toString ⌊percentage⌋
  else fpiTryDecimals percentage maxDecimals (List.range' 1 maxDecimals)

/-- `formatRemainingPercentage(current, limit, maxDecimals)` from
`src/utils/percentageFormatter.ts`. -/
def formatRemainingPercentage (current limit : ℚ) (maxDecimals : ℕ) : String :=
  if limit ≤ 0 then "0"
  else
    let usedPercent := current / limit * 100
    let remainingPercent := jsMax 0 (jsMin 100 (100 - usedPercent))
    formatPercentageIntelligent remainingPercent maxDecimals

example : formatRemainingPercentage 50 100 3 = "50" := by with_unfolding_all rfl
example : formatRemainingPercentage 0 100 3 = "100" := by with_unfolding_all rfl
example : formatRemainingPercentage 100 0 3 = "0" := by with_unfolding_all rfl
example : formatRemainingPercentage 67 201 3 = "66.667" := by with_unfolding_all rfl

/-! ## JS numbers with `NaN`/`Infinity` (for the unguarded premium percentage) -/

/-- A JS double restricted to the values reachable by the premium-percentage
computation: a finite (exact) rational, the two infinities, or `NaN`. -/
inductive JsNum where
  | nan : JsNum
  | posInf : JsNum
  | negInf : JsNum
  | fin (q : ℚ) : JsNum
deriving DecidableEq

/-- JS `/` on finite operands: division by (positive) zero yields `NaN` for a
zero numerator and a signed infinity otherwise. -/
def jsDiv (a b : ℚ) : JsNum :=
  if b = 0 then
    if a = 0 then .nan else if 0 < a then .posInf else .negInf
  else .fin (a / b)

/-- JS `*` where the left operand may be non-finite and the right operand is a
finite rational (the shape used in `premiumPercent`). -/
def jsMulFin (x : JsNum) (c : ℚ) : JsNum :=
  match x with
  | .nan => .nan
  | .posInf => if c = 0 then .nan else if 0 < c then .posInf else .negInf
  | .negInf => if c = 0 then .nan else if 0 < c then .negInf else .posInf
  | .fin q => .fin (q * c)

/-- JS `Math.round` extended to non-finite inputs (`Math.round(NaN)` is `NaN`,
`Math.round(±Infinity)` is `±Infinity`). -/
def jsRoundNum : JsNum → JsNum
  | .nan => .nan
  | .posInf => .posInf
  | .negInf => .negInf
  | .fin q => .fin (roundHalfUp q)

/-- `src/utils/updateStats.ts` lines 94–95:
`premiumPercentExact = (current / limit) * 100; premiumPercent =
Math.round(premiumPercentExact)` — there is no guard on `limit`. -/
def premiumPercent (current limit : ℚ) : JsNum :=
  jsRoundNum (jsMulFin (jsDiv current limit) 100)

example : premiumPercent 50 100 = .fin 50 := by with_unfolding_all rfl
example : premiumPercent 50 0 = .posInf := by with_unfolding_all rfl
example : premiumPercent 0 0 = .nan := by with_unfolding_all rfl
example : premiumPercent 150 100 = .fin 150 := by with_unfolding_all rfl

/-! ## Usage-based billing period (`fetchCursorStats`, `src/services/api.ts`) -/

/-- The calendar month immediately before `(m, y)` (months are 1-based). -/
def prevMonth (m : ℕ) (y : ℤ) : ℕ × ℤ :=
  if m = 1 then (12, y - 1) else (m - 1, y)

/-- `fetchCursorStats` lines 521–539: from today's 1-based month `m`, year `y`
and day-of-month `day`, compute the usage-based "current" period and "last"
period, using billing day 3.  Translated directly from the source:
the `if (currentDate.getDate() < usageBasedBillingDay)` roll-back decrements
the month (wrapping 1 → 12) and decrements the year exactly when the wrapped
month is 12; the last period then wraps the chosen current month the same
way. -/
def usageBasedPeriods (m : ℕ) (y : ℤ) (day : ℕ) : (ℕ × ℤ) × (ℕ × ℤ) :=
  let usageBasedBillingDay := 3
  let cur : ℕ × ℤ :=
    if day < usageBasedBillingDay then
      let m' := if m = 1 then 12 else m - 1
      (m', if m' = 12 then y - 1 else y)
    else (m, y)
  let last : ℕ × ℤ :=
    (if cur.1 = 1 then 12 else cur.1 - 1, if cur.1 = 1 then cur.2 - 1 else cur.2)
  (cur, last)

example : usageBasedPeriods 1 2026 2 = ((12, 2025), (11, 2025)) := by decide
example : usageBasedPeriods 1 2026 3 = ((1, 2026), (12, 2025)) := by decide
example : usageBasedPeriods 7 2026 15 = ((7, 2026), (6, 2026)) := by decide

/-! ## Billing-line parsing (`fetchMonthData`, `src/services/api.ts`)

The per-item loop of `fetchMonthData` (lines 299–417) classifies one raw
invoice line `{description, cents}` as skipped, as a mid-month payment
(accumulated into `midMonthPayment` and echoed as one special display line),
or as a regular usage line.  Descriptions are JS strings, modelled as
`List Char`.

The regexes of the source are unfolded into scans; none of them can benefit
from backtracking:
* in `/^(\d+) token-based usage calls to ([\w.-]+), totalling: \$(?:[\d.]+)/`
  each greedy class (`\d+`, `[\w.-]+`, `[\d.]+`) is followed by a literal
  character outside the class, so each capture is exactly the maximal run;
* `/^(\d+)\s+(.+?)...?/i` and the fallback `/^(\d+)/` capture the same
  maximal leading digit run as group 1, so the resolved `requestCount` is
  the numeric value of the maximal leading digit run on every non-token
  path that reaches `parseInt` (the two patterns differ only in the
  model-name text they make available, which is display-only and not part
  of any claim; the `parsedModelName` cascade for the non-token branch is
  accordingly not modelled).
-/

/-- One raw line of the monthly-invoice response (`{description, cents?}`);
an absent or `undefined` `cents` is `none`. -/
structure RawItem where
  description : List Char
  cents : Option ℤ

/-- `'Mid-month usage paid'`, the marker tested with `String.includes`. -/
def midMonthMarker : List Char := "Mid-month usage paid".toList

/-- JS `String.prototype.includes` on `List Char`. -/
def containsSeq (pat : List Char) : List Char → Bool
  | [] => pat.isEmpty
  | c :: s => pat.isPrefixOf (c :: s) || containsSeq pat s

/-- A character of the regex class `[\w.-]` (`\w` is `[A-Za-z0-9_]`). -/
def isModelChar (c : Char) : Bool :=
  c.isAlpha || c.isDigit || c = '_' || c = '.' || c = '-'

/-- A character of the regex class `[\d.]`. -/
def isDigitDot (c : Char) : Bool := c.isDigit || c = '.'

/-- Numeric value of a digit run (`parseInt` on a `\d+` capture). -/
def digitsVal (ds : List Char) : ℕ :=
  ds.foldl (fun acc c => 10 * acc + (c.toNat - '0'.toNat)) 0

/-- The maximal leading digit run of a description (group 1 of each of the
anchored patterns `/^(\d+).../`). -/
def leadingDigits (s : List Char) : List Char := s.takeWhile Char.isDigit

/-- `/^(\d+) token-based usage calls to ([\w.-]+), totalling: \$(?:[\d.]+)/`
as a scan; returns `(requestCount, modelName)` on a match. -/
def tokenBasedMatch (s : List Char) : Option (ℕ × List Char) :=
  let ds := leadingDigits s
  if ds.isEmpty then none
  else
    let r₁ := s.drop ds.length
    let lit₁ := " token-based usage calls to ".toList
    if lit₁.isPrefixOf r₁ then
      let r₂ := r₁.drop lit₁.length
      let m := r₂.takeWhile isModelChar
      if m.isEmpty then none
      else
        let r₃ := r₂.drop m.length
        let lit₂ := ", totalling: $".toList
        if lit₂.isPrefixOf r₃ then
          if (r₃.drop lit₂.length).takeWhile isDigitDot |>.isEmpty then none
          else some (digitsVal ds, m)
        else none
    else none

/-- The structured content of a regular usage line as computed by the loop
body before display formatting: the resolved request count, the raw cents,
the model captured by the token-based pattern (`none` on the count-based
branch, whose model-name cascade is display-only), and the discount flag. -/
structure ParsedUsage where
  requestCount : ℕ
  cents : ℤ
  tokenBasedModel : Option (List Char)
  isDiscounted : Bool
deriving DecidableEq

/-- Outcome of the loop body of `fetchMonthData` for one raw line. -/
inductive LineResult where
  | skip : LineResult
  | midMonthCredit (absCents : ℤ) : LineResult
  | usageLine (u : ParsedUsage) : LineResult
deriving DecidableEq

/-- `fetchMonthData` lines 299–417, the classification of one raw line, in
source order: missing/`undefined` cents → skip; the mid-month marker →
accumulate `Math.abs(cents)` (and push one special line); otherwise resolve
`requestCount` from the token-based pattern or from the leading digit run
(`originalMatch`/`fallbackCountMatch` both capture that same run), skipping
when there is no leading integer or the count resolves to 0. -/
def classifyLine (it : RawItem) : LineResult :=
  match it.cents with
  | none => .skip
  | some cents =>
    if containsSeq midMonthMarker it.description then
      .midMonthCredit (cents.natAbs : ℤ)
    else
      let isDiscounted := containsSeq "discounted".toList (it.description.map Char.toLower)
      match tokenBasedMatch it.description with
      | some (n, model) =>
        if n = 0 then .skip else .usageLine ⟨n, cents, some model, isDiscounted⟩
      | none =>
        let ds := leadingDigits it.description
        if ds.isEmpty then .skip
        else if digitsVal ds = 0 then .skip
        else .usageLine ⟨digitsVal ds, cents, none, isDiscounted⟩

/-- One entry of the `usageItems` array: its description and whether it is
the special mid-month credit line (pushed with a negated running total)
rather than a regular usage line. -/
structure PushedLine where
  description : List Char
  isMidMonthLine : Bool
deriving DecidableEq

/-- The entries one raw line contributes to `usageItems`. -/
def pushedLines (it : RawItem) : List PushedLine :=
  match classifyLine it with
  | .skip => []
  | .midMonthCredit _ => [⟨it.description, true⟩]
  | .usageLine _ => [⟨it.description, false⟩]

/-- The `items` array returned by `fetchMonthData`, in provider order. -/
def fetchMonthItems (raws : List RawItem) : List PushedLine :=
  (raws.map pushedLines).flatten

/-- The `midMonthPayment` accumulator returned by `fetchMonthData`
(in dollars: each marker line with cents present adds `Math.abs(cents)/100`). -/
def midMonthPaymentDollars (raws : List RawItem) : ℚ :=
  (raws.map fun it =>
    match classifyLine it with
    | .midMonthCredit a => (a : ℚ) / 100
    | _ => 0).sum

/-- Specification-side sum: the absolute cents values of all lines whose
description contains the mid-month marker and whose cents are present. -/
def midMonthAbsCentsSum (raws : List RawItem) : ℤ :=
  (raws.map fun it =>
    match it.cents with
    | some c => if containsSeq midMonthMarker it.description then (c.natAbs : ℤ) else 0
    | none => 0).sum

example :
    classifyLine ⟨"5 fast premium requests beyond 500/month".toList, some 200⟩ =
      .usageLine ⟨5, 200, none, false⟩ := by decide
example :
    classifyLine ⟨"12 token-based usage calls to claude-4-sonnet, totalling: $3.60".toList,
      some 360⟩ = .usageLine ⟨12, 360, some "claude-4-sonnet".toList, false⟩ := by decide
example : classifyLine ⟨"Mid-month usage paid: $20.00".toList, some (-2000)⟩ =
    .midMonthCredit 2000 := by decide
example : classifyLine ⟨"0 requests to gpt-4".toList, some 500⟩ = .skip := by decide
example : classifyLine ⟨"tool calls".toList, some 100⟩ = .skip := by decide
example : classifyLine ⟨"5 fast requests".toList, none⟩ = .skip := by decide
example : classifyLine ⟨"5 fast requests".toList, some 0⟩ =
    .usageLine ⟨5, 0, none, false⟩ := by decide

/-! ## The per-cycle fetch/retry flow (`updateStats`, lines 64–75)

`updateStats` calls `fetchCursorStats(token).catch(...)`: on a rejection
whose HTTP status is 401 or 403 it re-reads the credential and, if one is
obtained, retries the fetch exactly once, surfacing whatever that second
call produces; every other rejection (and a missing refreshed credential)
is re-thrown to the outer catch.  The fetch collaborator is modelled as a
map from the call index (0 = first call, 1 = retry) to that call's result. -/

/-- A rejected fetch, carrying the optional HTTP status of
`error.response?.status`. -/
structure FetchError where
  status : Option ℕ
deriving DecidableEq

/-- `error.response?.status === 401 || error.response?.status === 403`. -/
def isAuthFetchError (e : FetchError) : Bool :=
  e.status == some 401 || e.status == some 403

/-- Environment of one polling cycle: the outcome of each fetch call and the
result of the credential re-read performed inside the catch handler. -/
structure CycleEnv (σ : Type) where
  fetchResult : ℕ → Except FetchError σ
  refreshedToken : Option String

/-- `updateStats` lines 64–75: run the fetch with its single-retry catch
handler; returns the number of fetch calls made and the cycle's outcome. -/
def runFetchCycle {σ : Type} (env : CycleEnv σ) : ℕ × Except FetchError σ :=
  match env.fetchResult 0 with
  | .ok s => (1, .ok s)
  | .error e =>
    if isAuthFetchError e then
      match env.refreshedToken with
      | some _ => (2, env.fetchResult 1)
      | none => (1, .error e)
    else (1, .error e)

/-! ## The cooldown state machine (`src/utils/cooldown.ts` + `updateStats`)

The cooldown module itself (`src/utils/cooldown.ts`) is not among the
provided sources — only its call sites in `updateStats.ts` and
`extension.ts` are.  Its state and accessors are therefore modelled from
the spec (§3 `CooldownState`, §4.4 PollingCooldownController); the success
and failure call sequences below are translated from `updateStats.ts`
(lines 77–85 and line 677), which is in `src/`. -/

/-- Modelled from the spec: `CooldownState` (§3) of the missing
`src/utils/cooldown.ts` module — the consecutive-failure counter and the
cooldown start timestamp (absent when not in cooldown). -/
structure CooldownState where
  consecutiveErrorCount : ℕ
  cooldownStartedAt : Option ℤ
deriving DecidableEq

/-- Modelled from the spec: `incrementConsecutiveErrorCount()` of the missing
cooldown module — adds one failure and, when the counter reaches the
configured threshold, records `cooldownStartedAt = now` (§4.4: cooldown is
entered when the counter reaches the threshold, and `cooldownStartedAt` is
set on that failure, not before). -/
def incrementConsecutiveErrorCount (threshold : ℕ) (now : ℤ) (s : CooldownState) :
    CooldownState :=
  let c := s.consecutiveErrorCount + 1
  { consecutiveErrorCount := c
    cooldownStartedAt := if c = threshold then some now else s.cooldownStartedAt }

/-- Modelled from the spec: `resetConsecutiveErrorCount()` of the missing
cooldown module. -/
def resetConsecutiveErrorCount (s : CooldownState) : CooldownState :=
  { s with consecutiveErrorCount := 0 }

/-- Modelled from the spec: `setCooldownStartTime(v)` of the missing cooldown
module. -/
def setCooldownStartTime (v : Option ℤ) (s : CooldownState) : CooldownState :=
  { s with cooldownStartedAt := v }

/-- `updateStats` lines 77–85 (in `src/`): after a successful fetch, if the
error counter is positive or a cooldown is recorded, reset the counter, and
if a cooldown is recorded clear it and restart the normal refresh interval.
Returns the new state and whether `startRefreshInterval()` was invoked. -/
def onSuccessfulFetch (s : CooldownState) : CooldownState × Bool :=
  if 0 < s.consecutiveErrorCount ∨ s.cooldownStartedAt.isSome then
    let s₁ := resetConsecutiveErrorCount s
    if s₁.cooldownStartedAt.isSome then (setCooldownStartTime none s₁, true)
    else (s₁, false)
  else (s, false)

/-- `updateStats` line 677 (in `src/`): the outer catch of a failed cycle
calls `incrementConsecutiveErrorCount()`. -/
def onFailedFetch (threshold : ℕ) (now : ℤ) (s : CooldownState) : CooldownState :=
  incrementConsecutiveErrorCount threshold now s

example : onSuccessfulFetch ⟨2, none⟩ = (⟨0, none⟩, false) := by decide
example : onSuccessfulFetch ⟨3, some 77⟩ = (⟨0, none⟩, true) := by decide
example : onFailedFetch 3 9 ⟨2, none⟩ = ⟨3, some 9⟩ := by decide
example : onFailedFetch 3 9 ⟨1, none⟩ = ⟨2, none⟩ := by decide

/-! ## JS string splitting (`String.prototype.split` with a string separator)

Used by `AuthService` (splitting on `%3A%3A`, `.` and `|`).  JS `split`
repeatedly takes the leftmost occurrence of the (non-empty) separator and
continues after it; it is modelled with an explicit fuel that is always
sufficient (each round consumes at least one character). -/

/-- The segment before the first occurrence of `sep` and the remainder after
it, or `none` when `sep` (assumed non-empty) does not occur. -/
def findSplit (sep : List Char) : List Char → Option (List Char × List Char)
  | [] => none
  | c :: s =>
    if sep.isPrefixOf (c :: s) then some ([], (c :: s).drop sep.length)
    else (findSplit sep s).map fun p => (c :: p.1, p.2)

/-- Fuel-indexed worker for `jsSplit`. -/
def jsSplitAux (sep : List Char) : ℕ → List Char → List (List Char)
  | 0, s => [s]
  | fuel + 1, s =>
    match findSplit sep s with
    | none => [s]
    | some (p, r) => p :: jsSplitAux sep fuel r

/-- JS `s.split(sep)` for a non-empty string separator. -/
def jsSplit (sep s : List Char) : List (List Char) := jsSplitAux sep (s.length + 1) s

example : jsSplit "%3A%3A".toList "a%3A%3Ab%3A%3Ac".toList =
    ["a".toList, "b".toList, "c".toList] := by decide
example : jsSplit ['.'] "x.y.z".toList = [['x'], ['y'], ['z']] := by decide
example : jsSplit ['|'] "auth0|u1".toList = ["auth0".toList, "u1".toList] := by decide

/-! ## A model of `JSON.parse` (for the external `jsonwebtoken` decode)

`AuthService.decodeToken` delegates to the external `jsonwebtoken`/`jws`
libraries, which (a) reject any token not matching the JWS shape
`base64url.base64url.base64url`, (b) base64url-decode the header and payload
parts, and (c) `JSON.parse` them.  The JSON model below supports objects,
arrays, strings with the standard escapes (`\uXXXX` restricted to
non-surrogate code points), numbers with optional fraction/exponent (exact
rational value), and the three literals; this covers every payload a claim
exercises. -/

/-- `'{'` and `'}'` as characters. -/
def curlyOpen : Char := Char.ofNat 123

def curlyClose : Char := Char.ofNat 125

/-- A parsed JSON value.  Numbers carry their exact rational value. -/
inductive Json where
  | null : Json
  | bool (b : Bool) : Json
  | num (q : ℚ) : Json
  | str (s : List Char) : Json
  | arr (xs : List Json) : Json
  | obj (fields : List (List Char × Json)) : Json

/-- JSON insignificant whitespace. -/
def skipWs (s : List Char) : List Char :=
  s.dropWhile fun c => c = ' ' || c = '\t' || c = '\n' || c = '\r'

/-- Value of one hexadecimal digit. -/
def hexVal (c : Char) : Option ℕ :=
  if c.isDigit then some (c.toNat - '0'.toNat)
  else if 'a' ≤ c ∧ c ≤ 'f' then some (c.toNat - 'a'.toNat + 10)
  else if 'A' ≤ c ∧ c ≤ 'F' then some (c.toNat - 'A'.toNat + 10)
  else none

/-- Body of a JSON string literal (after the opening quote): contents and the
remainder after the closing quote. -/
def parseStringBody : ℕ → List Char → Option (List Char × List Char)
  | 0, _ => none
  | fuel + 1, s =>
    match s with
    | [] => none
    | c :: rest =>
      if c = '"' then some ([], rest)
      else if c = '\\' then
        match rest with
        | [] => none
        | e :: rest₂ =>
          if e = 'u' then
            match rest₂ with
            | h₁ :: h₂ :: h₃ :: h₄ :: rest₃ => do
              let v₁ ← hexVal h₁
              let v₂ ← hexVal h₂
              let v₃ ← hexVal h₃
              let v₄ ← hexVal h₄
              let n := ((v₁ * 16 + v₂) * 16 + v₃) * 16 + v₄
              if 0xD800 ≤ n ∧ n < 0xE000 then none
              else do
                let (tail, r) ← parseStringBody fuel rest₃
                pure (Char.ofNat n :: tail, r)
            | _ => none
          else do
            let c' ←
              if e = '"' then some '"'
              else if e = '\\' then some '\\'
              else if e = '/' then some '/'
              else if e = 'n' then some '\n'
              else if e = 't' then some '\t'
              else if e = 'r' then some '\r'
              else if e = 'b' then some (Char.ofNat 8)
              else if e = 'f' then some (Char.ofNat 12)
              else none
            let (tail, r) ← parseStringBody fuel rest₂
            pure (c' :: tail, r)
      else if c.toNat < 32 then none
      else do
        let (tail, r) ← parseStringBody fuel rest
        pure (c :: tail, r)

/-- A JSON number: optional sign, integer part without superfluous leading
zeros, optional fraction, optional exponent; returns its exact value. -/
def parseNumber (s : List Char) : Option (ℚ × List Char) :=
  let (neg, s₁) := match s with
    | '-' :: t => (true, t)
    | t => (false, t)
  let intDigits := s₁.takeWhile Char.isDigit
  if intDigits.isEmpty then none
  else if 2 ≤ intDigits.length ∧ intDigits.headD '0' = '0' then none
  else
    let s₂ := s₁.drop intDigits.length
    let (fracDigits, s₃) :=
      match s₂ with
      | '.' :: t =>
        let fd := t.takeWhile Char.isDigit
        (fd, t.drop fd.length)
      | t => (([] : List Char), t)
    if s₂ ≠ s₃ ∧ fracDigits.isEmpty then none
    else
      let (expVal, s₄) :=
        match s₃ with
        | e :: t =>
          if e = 'e' ∨ e = 'E' then
            let (esign, t₁) := match t with
              | '+' :: t' => ((1 : ℤ), t')
              | '-' :: t' => ((-1 : ℤ), t')
              | t' => ((1 : ℤ), t')
            let eds := t₁.takeWhile Char.isDigit
            if eds.isEmpty then ((0 : ℤ), s₃)
            else (esign * (digitsVal eds : ℤ), t₁.drop eds.length)
          else ((0 : ℤ), s₃)
        | [] => ((0 : ℤ), s₃)
      let mantissa : ℚ :=
        (digitsVal intDigits : ℚ) + (digitsVal fracDigits : ℚ) / 10 ^ fracDigits.length
      let signed : ℚ := if neg then -mantissa else mantissa
      let value : ℚ :=
        if 0 ≤ expVal then signed * 10 ^ expVal.toNat else signed / 10 ^ (-expVal).toNat
      some (value, s₄)

mutual

/-- One JSON value at the head of the input (leading whitespace already
skipped); the fuel bounds the nesting depth. -/
def parseJsonValue : ℕ → List Char → Option (Json × List Char)
  | 0, _ => none
  | fuel + 1, s =>
    match s with
    | [] => none
    | c :: rest =>
      if c = '"' then (parseStringBody (rest.length + 1) rest).map fun p => (.str p.1, p.2)
      else if c = curlyOpen then parseJsonMembers fuel (skipWs rest)
      else if c = '[' then parseJsonElems fuel (skipWs rest)
      else if ['n', 'u', 'l', 'l'].isPrefixOf s then some (.null, s.drop 4)
      else if ['t', 'r', 'u', 'e'].isPrefixOf s then some (.bool true, s.drop 4)
      else if ['f', 'a', 'l', 's', 'e'].isPrefixOf s then some (.bool false, s.drop 5)
      else (parseNumber s).map fun p => (.num p.1, p.2)

/-- The members of a JSON object (after `{`, leading whitespace skipped). -/
def parseJsonMembers : ℕ → List Char → Option (Json × List Char)
  | 0, _ => none
  | fuel + 1, s =>
    match s with
    | c :: rest =>
      if c = curlyClose then some (.obj [], rest)
      else if c = '"' then do
        let (key, r₁) ← parseStringBody (rest.length + 1) rest
        match skipWs r₁ with
        | ':' :: r₂ => do
          let (v, r₃) ← parseJsonValue fuel (skipWs r₂)
          match skipWs r₃ with
          | ',' :: r₄ => do
            let (tail, r₅) ← parseJsonMembers fuel (skipWs r₄)
            match tail with
            | .obj fields => pure (.obj ((key, v) :: fields), r₅)
            | _ => none
          | c' :: r₄ => if c' = curlyClose then pure (.obj [(key, v)], r₄) else none
          | [] => none
        | _ => none
      else none
    | [] => none

/-- The elements of a JSON array (after `[`, leading whitespace skipped). -/
def parseJsonElems : ℕ → List Char → Option (Json × List Char)
  | 0, _ => none
  | fuel + 1, s =>
    match s with
    | ']' :: rest => some (.arr [], rest)
    | _ => do
      let (v, r₁) ← parseJsonValue fuel s
      match skipWs r₁ with
      | ',' :: r₂ => do
        let (tail, r₃) ← parseJsonElems fuel (skipWs r₂)
        match tail with
        | .arr xs => pure (.arr (v :: xs), r₃)
        | _ => none
      | ']' :: r₂ => pure (.arr [v], r₂)
      | _ => none

end

/-- `JSON.parse` on a character sequence: one value plus trailing whitespace
only. -/
def jsonParse (s : List Char) : Option Json := do
  let (v, rest) ← parseJsonValue (s.length + 1) (skipWs s)
  if (skipWs rest).isEmpty then some v else none

/-- Property access on a parsed object (`JSON.parse` keeps the last of
duplicate keys). -/
def objGet (fields : List (List Char × Json)) (key : List Char) : Option Json :=
  (fields.reverse.find? fun kv => kv.1 == key).map fun kv => kv.2

/-! ## base64url decoding (for the external `jws` decode)

The `jws` library accepts only tokens matching
`/^[a-zA-Z0-9\-_]+?\.[a-zA-Z0-9\-_]+?\.([a-zA-Z0-9\-_]+)?$/` and decodes the
header/payload parts with Node's base64 decoder, which on that alphabet is
plain base64url (a dangling single character, contributing fewer than 8
bits, is dropped).  Decoded bytes are read back as characters byte-for-byte
(`latin1`); for the ASCII payloads exercised here this agrees with the
`utf8` reading used for the payload. -/

/-- A character of the base64url alphabet. -/
def isBase64UrlChar (c : Char) : Bool :=
  c.isAlpha || c.isDigit || c = '-' || c = '_'

/-- The 6-bit value of a base64url character. -/
def b64Val (c : Char) : Option ℕ :=
  if 'A' ≤ c ∧ c ≤ 'Z' then some (c.toNat - 'A'.toNat)
  else if 'a' ≤ c ∧ c ≤ 'z' then some (c.toNat - 'a'.toNat + 26)
  else if c.isDigit then some (c.toNat - '0'.toNat + 52)
  else if c = '-' then some 62
  else if c = '_' then some 63
  else none

/-- Unpadded base64url to bytes: groups of four characters give three bytes;
a final group of two or three gives one or two bytes; a dangling single
character is dropped. -/
def b64UrlDecodeBytes : List Char → Option (List ℕ)
  | [] => some []
  | [_] => some []
  | [c₁, c₂] => do
    let v₁ ← b64Val c₁
    let v₂ ← b64Val c₂
    pure [v₁ * 4 + v₂ / 16]
  | [c₁, c₂, c₃] => do
    let v₁ ← b64Val c₁
    let v₂ ← b64Val c₂
    let v₃ ← b64Val c₃
    pure [v₁ * 4 + v₂ / 16, v₂ % 16 * 16 + v₃ / 4]
  | c₁ :: c₂ :: c₃ :: c₄ :: rest => do
    let v₁ ← b64Val c₁
    let v₂ ← b64Val c₂
    let v₃ ← b64Val c₃
    let v₄ ← b64Val c₄
    let tail ← b64UrlDecodeBytes rest
    pure ((v₁ * 4 + v₂ / 16) :: (v₂ % 16 * 16 + v₃ / 4) :: (v₃ % 4 * 64 + v₄) :: tail)

/-- base64url to characters, byte-for-byte. -/
def b64UrlDecodeChars (s : List Char) : Option (List Char) :=
  (b64UrlDecodeBytes s).map (List.map Char.ofNat)

/-! ## `AuthService` (`src/utils/auth.ts`)

`ValidationResult<T>` is modelled as `Except AuthErrorCode T`; the error
codes are those of the `createAuthError` calls.  `Date.now()/1000` (used
only by the expiry check) is the explicit parameter `now`. -/

/-- The `code` values of the auth errors raised by `AuthService` (plus one
for the `jwt.decode` failure modes of the external library, which the
source maps to `JWT_DECODE_FAILED`/`JWT_DECODE_ERROR`). -/
inductive AuthErrorCode where
  | invalidJwtFormat : AuthErrorCode
  | jwtDecodeFailed : AuthErrorCode
  | invalidJwtPayload : AuthErrorCode
  | missingSubClaim : AuthErrorCode
  | invalidClaimType : AuthErrorCode
  | tokenExpired : AuthErrorCode
  | userIdExtractionFailed : AuthErrorCode
  | invalidSessionToken : AuthErrorCode
  | invalidSessionTokenFormat : AuthErrorCode
  | emptySessionTokenParts : AuthErrorCode
deriving DecidableEq

/-- The claims of `CursorTokenPayload` that `AuthService` reads.  `userId`
is kept only when it is a JSON string, following the declared interface
(`userId?: string`); payloads carrying a non-string `userId` are outside
the model. -/
structure CursorTokenPayload where
  sub : List Char
  iat : Option ℚ
  exp : Option ℚ
  nbf : Option ℚ
  userId : Option (List Char)
deriving DecidableEq

namespace AuthService

/-- `validateTokenFormat`: three non-empty dot-separated parts (the
`validateRequired` null/undefined guard cannot fire on a string model). -/
def validateTokenFormat (token : List Char) : Except AuthErrorCode (List Char) :=
  let parts := jsSplit ['.'] token
  if parts.length ≠ 3 then .error .invalidJwtFormat
  else if parts.any List.isEmpty then .error .invalidJwtFormat
  else .ok token

/-- One numeric-claim check of the `['iat', 'exp', 'nbf']` loop of
`validateTokenPayload`: a present claim of a non-number type is rejected. -/
def numericClaim (fields : List (List Char × Json)) (name : List Char) :
    Except AuthErrorCode (Option ℚ) :=
  match objGet fields name with
  | none => .ok none
  | some (.num q) => .ok (some q)
  | some _ => .error .invalidClaimType

/-- `validateTokenPayload`: the payload must be an object whose `sub` claim
is a truthy string, and whose `iat`/`exp`/`nbf` claims, when present, are
numbers. -/
def validateTokenPayload (payload : Json) : Except AuthErrorCode CursorTokenPayload :=
  match payload with
  | .obj fields =>
    match objGet fields "sub".toList with
    | some (.str sub) =>
      if sub.isEmpty then .error .missingSubClaim
      else do
        let iat ← numericClaim fields "iat".toList
        let exp ← numericClaim fields "exp".toList
        let nbf ← numericClaim fields "nbf".toList
        let userId := match objGet fields "userId".toList with
          | some (.str s) => some s
          | _ => none
        pure ⟨sub, iat, exp, nbf, userId⟩
    | _ => .error .missingSubClaim
  | _ => .error .invalidJwtPayload

/-- `decodeToken`: format validation, then the external
`jwt.decode(token, { complete: true })` (JWS shape check, base64url
decoding, `JSON.parse` of header and payload — a payload that does not
parse to a JSON value leaves `decoded.payload` a string, which
`validateTokenPayload` then rejects; the model folds both failure modes
into an error), then payload validation. -/
def decodeToken (token : List Char) :
    Except AuthErrorCode (Json × CursorTokenPayload × List Char) := do
  let _ ← validateTokenFormat token
  match jsSplit ['.'] token with
  | [h, p, sig] =>
    if h.all isBase64UrlChar && p.all isBase64UrlChar && sig.all isBase64UrlChar then
      match b64UrlDecodeChars h with
      | some hChars =>
        match jsonParse hChars with
        | some header =>
          match b64UrlDecodeChars p with
          | some pChars =>
            match jsonParse pChars with
            | some payloadJson => do
              let payload ← validateTokenPayload payloadJson
              pure (header, payload, sig)
            | none => .error .invalidJwtPayload
          | none => .error .jwtDecodeFailed
        | none => .error .jwtDecodeFailed
      | none => .error .jwtDecodeFailed
    else .error .jwtDecodeFailed
  | _ => .error .jwtDecodeFailed

/-- `validateToken` with the default (empty) options: decode, then reject a
truthy `exp` claim lying in the past; the `iat` block is a no-op when
neither `requireIat` nor `maxAge` is supplied, and the audience/issuer
checks are skipped. -/
def validateToken (now : ℤ) (token : List Char) :
    Except AuthErrorCode CursorTokenPayload := do
  let (_, payload, _) ← decodeToken token
  match payload.exp with
  | some q => if q ≠ 0 ∧ q < (now : ℚ) then .error .tokenExpired else pure payload
  | none => pure payload

/-- `extractUserId`: from a validated payload take the segment after the
first `'|'` of `sub` when it is non-empty, otherwise a truthy `userId`
claim, otherwise fail. -/
def extractUserId (now : ℤ) (token : List Char) : Except AuthErrorCode (List Char) := do
  let payload ← validateToken now token
  let fallback : Except AuthErrorCode (List Char) :=
    match payload.userId with
    | some uid => if uid.isEmpty then .error .userIdExtractionFailed else .ok uid
    | none => .error .userIdExtractionFailed
  if payload.sub.contains '|' then
    let parts := jsSplit ['|'] payload.sub
    let p₁ := parts.getD 1 []
    if 2 ≤ parts.length ∧ ¬p₁.isEmpty then .ok p₁ else fallback
  else fallback

/-- The literal `%3A%3A` separating user id and token in a session token. -/
def sessionSeparator : List Char := "%3A%3A".toList

/-- `createSessionToken`: `` `${userId}%3A%3A${token}` ``. -/
def createSessionToken (now : ℤ) (token : List Char) : Except AuthErrorCode (List Char) := do
  let userId ← extractUserId now token
  pure (userId ++ sessionSeparator ++ token)

/-- `validateSessionToken`: non-empty input, exactly two `%3A%3A`-separated
parts, both truthy, and a JWT part that validates. -/
def validateSessionToken (now : ℤ) (sessionToken : List Char) :
    Except AuthErrorCode (List Char × List Char) :=
  if sessionToken.isEmpty then .error .invalidSessionToken
  else
    let parts := jsSplit sessionSeparator sessionToken
    if parts.length ≠ 2 then .error .invalidSessionTokenFormat
    else
      let userId := parts.getD 0 []
      let token := parts.getD 1 []
      if userId.isEmpty ∨ token.isEmpty then .error .emptySessionTokenParts
      else do
        let _ ← validateToken now token
        pure (userId, token)

end AuthService

/-! ## Helper lemmas -/

theorem jsMax_eq (a b : ℚ) : jsMax a b = max a b := by
  rw [jsMax, max_def]

@[simp] theorem exceptBindError {ε α β : Type} (e : ε) (f : α → Except ε β) :
    (do let v ← (Except.error e : Except ε α); f v) = Except.error e := rfl

@[simp] theorem exceptBindOk {ε α β : Type} (a : α) (f : α → Except ε β) :
    (do let v ← (Except.ok a : Except ε α); f v) = f a := rfl

@[simp] theorem exceptBindError' {ε α β : Type} (e : ε) (f : α → Except ε β) :
    Except.bind (Except.error e) f = Except.error e := rfl

@[simp] theorem exceptBindOk' {ε α β : Type} (a : α) (f : α → Except ε β) :
    Except.bind (Except.ok a) f = f a := rfl

theorem containsSeq_iff (pat : List Char) : ∀ s, containsSeq pat s = true ↔ pat <:+: s := by
  intro s
  induction s with
  | nil => simp [containsSeq, List.isEmpty_iff, List.infix_nil]
  | cons c s ih =>
    simp [containsSeq, List.infix_cons_iff, List.isPrefixOf_iff_prefix, ih]

/-- Unfolding equation of `findSplit` on a non-empty input. -/
theorem findSplit_cons (sep : List Char) (c : Char) (s : List Char) :
    findSplit sep (c :: s) =
      if sep.isPrefixOf (c :: s) then some ([], (c :: s).drop sep.length)
      else (findSplit sep s).map fun p => (c :: p.1, p.2) := rfl

/-- A successful `findSplit` decomposes its input around the separator. -/
theorem findSplit_eq_append (sep : List Char) :
    ∀ s pre r, findSplit sep s = some (pre, r) → s = pre ++ sep ++ r := by
  intro s
  induction s with
  | nil => intro pre r h; cases h
  | cons c s ih =>
    intro pre r h
    rw [findSplit_cons] at h
    split_ifs at h with hp
    · obtain ⟨t, ht⟩ := List.isPrefixOf_iff_prefix.mp hp
      cases h
      rw [← ht, List.nil_append, List.drop_left]
    · rcases hf : findSplit sep s with _ | ⟨p', r'⟩ <;> rw [hf] at h
      · cases h
      · cases h
        rw [ih p' r' hf]
        rfl

/-- On a `'%'`-free input, `findSplit` on the session separator finds
nothing. -/
theorem findSplit_sessionSeparator_none :
    ∀ t : List Char, '%' ∉ t → findSplit AuthService.sessionSeparator t = none := by
  intro t
  induction t with
  | nil => intro _; rfl
  | cons c s ih =>
    intro hmem
    rw [findSplit_cons, if_neg, ih fun hc => hmem (List.mem_cons_of_mem c hc),
      Option.map_none']
    intro hp
    obtain ⟨t', ht'⟩ := List.isPrefixOf_iff_prefix.mp hp
    have hc : c = '%' := by
      have := congrArg (fun l => l.headD ' ') ht'
      simpa [AuthService.sessionSeparator] using this.symm
    exact hmem (hc ▸ List.mem_cons_self c s)

/-- The boundary analysis for splitting `u ++ "%3A%3A" ++ t` on `"%3A%3A"`:
when `u` neither contains the separator nor ends in `"%3A"`, the first
occurrence is exactly the middle one. -/
theorem findSplit_boundary :
    ∀ u t : List Char, containsSeq AuthService.sessionSeparator u = false →
      List.isSuffixOf "%3A".toList u = false →
      findSplit AuthService.sessionSeparator (u ++ AuthService.sessionSeparator ++ t) =
        some (u, t) := by
  intro u
  induction u with
  | nil =>
    intro t _ _
    show findSplit AuthService.sessionSeparator
      ('%' :: ('3' :: 'A' :: '%' :: '3' :: 'A' :: t)) = some ([], t)
    rw [findSplit_cons, if_pos]
    · rfl
    · exact List.isPrefixOf_iff_prefix.mpr
        (List.prefix_append AuthService.sessionSeparator t)
  | cons c u' ih =>
    intro t h₁ h₂
    have h₁' : AuthService.sessionSeparator.isPrefixOf (c :: u') = false ∧
        containsSeq AuthService.sessionSeparator u' = false := by
      simpa [containsSeq] using h₁
    have h₂' : List.isSuffixOf "%3A".toList u' = false := by
      rcases hs : List.isSuffixOf "%3A".toList u' with _ | _
      · rfl
      · exfalso
        have hsu : "%3A".toList <:+ c :: u' :=
          (List.isSuffixOf_iff_suffix.mp hs).trans (List.suffix_cons c u')
        rw [List.isSuffixOf_iff_suffix.mpr hsu] at h₂
        cases h₂
    have hstep : ¬AuthService.sessionSeparator.isPrefixOf
        ((c :: u') ++ AuthService.sessionSeparator ++ t) = true := by
      intro hp
      have hp' : AuthService.sessionSeparator <+:
          (c :: u') ++ (AuthService.sessionSeparator ++ t) := by
        rw [← List.append_assoc]
        exact List.isPrefixOf_iff_prefix.mp hp
      rcases le_or_lt AuthService.sessionSeparator.length (c :: u').length with hle | hlt
      · have htake := List.prefix_iff_eq_take.mp hp'
        rw [List.take_append_eq_append_take,
          Nat.sub_eq_zero_of_le hle, List.take_zero, List.append_nil] at htake
        have : AuthService.sessionSeparator <:+: c :: u' :=
          (htake ▸ List.take_prefix _ _ : AuthService.sessionSeparator <+: c :: u').isInfix
        rw [(containsSeq_iff _ _).mpr this] at h₁
        cases h₁
      · have hwp : (c :: u') <+: AuthService.sessionSeparator :=
          List.prefix_of_prefix_length_le (List.prefix_append _ _) hp' (le_of_lt hlt)
        have hmem : (c :: u') ∈ AuthService.sessionSeparator.inits :=
          (List.mem_inits _ _).mpr hwp
        have hinits : AuthService.sessionSeparator.inits =
            [[], ['%'], ['%', '3'], ['%', '3', 'A'], ['%', '3', 'A', '%'],
              ['%', '3', 'A', '%', '3'], ['%', '3', 'A', '%', '3', 'A']] := by decide
        rw [hinits] at hmem
        simp only [List.mem_cons, List.not_mem_nil, or_false] at hmem
        rcases hmem with he | he | he | he | he | he | he
        · cases he
        · rw [he] at hp'
          simp [AuthService.sessionSeparator, List.cons_prefix_cons] at hp'
        · rw [he] at hp'
          simp [AuthService.sessionSeparator, List.cons_prefix_cons] at hp'
        · rw [he] at h₂
          have : List.isSuffixOf "%3A".toList ['%', '3', 'A'] = true := by decide
          rw [this] at h₂
          cases h₂
        · rw [he] at hp'
          simp [AuthService.sessionSeparator, List.cons_prefix_cons] at hp'
        · rw [he] at hp'
          simp [AuthService.sessionSeparator, List.cons_prefix_cons] at hp'
        · rw [he] at hlt
          simp [AuthService.sessionSeparator] at hlt
    show findSplit AuthService.sessionSeparator
        (c :: (u' ++ AuthService.sessionSeparator ++ t)) = some (c :: u', t)
    rw [findSplit_cons, if_neg (by simpa using hstep), ih t h₁'.2 h₂']
    rfl

/-- `jsSplitAux` returns a non-empty list. -/
theorem jsSplitAux_ne_nil (sep : List Char) (fuel : ℕ) (s : List Char) :
    jsSplitAux sep fuel s ≠ [] := by
  cases fuel with
  | zero => simp [jsSplitAux]
  | succ n =>
    rw [jsSplitAux]
    rcases findSplit sep s with _ | p <;> simp

/-- When the separator does not occur, `jsSplitAux` returns the input
unsplit. -/
theorem jsSplitAux_of_none (sep : List Char) (fuel : ℕ) (s : List Char)
    (h : findSplit sep s = none) : jsSplitAux sep fuel s = [s] := by
  cases fuel with
  | zero => rfl
  | succ n => rw [jsSplitAux, h]

/-- Splitting `u ++ "%3A%3A" ++ t` on `"%3A%3A"` gives exactly `[u, t]` when
`u` neither contains the separator nor ends in `"%3A"` and `t` is
`'%'`-free. -/
theorem jsSplit_around (u t : List Char)
    (h₁ : containsSeq AuthService.sessionSeparator u = false)
    (h₂ : List.isSuffixOf "%3A".toList u = false) (h₃ : '%' ∉ t) :
    jsSplit AuthService.sessionSeparator
      (u ++ AuthService.sessionSeparator ++ t) = [u, t] := by
  rw [jsSplit, jsSplitAux, findSplit_boundary u t h₁ h₂]
  dsimp only
  rw [jsSplitAux_of_none _ _ _ (findSplit_sessionSeparator_none t h₃)]

/-- Inverse of `jsSplit`: interleaving the parts with the separator. -/
def joinSep (sep : List Char) : List (List Char) → List Char
  | [] => []
  | [x] => x
  | x :: y :: xs => x ++ sep ++ joinSep sep (y :: xs)

/-- `jsSplit` reconstructs its input. -/
theorem joinSep_jsSplitAux (sep : List Char) :
    ∀ (fuel : ℕ) (s : List Char), joinSep sep (jsSplitAux sep fuel s) = s := by
  intro fuel
  induction fuel with
  | zero => intro s; rfl
  | succ n ih =>
    intro s
    rw [jsSplitAux]
    rcases hf : findSplit sep s with _ | ⟨p, r⟩
    · rfl
    · rcases hrest : jsSplitAux sep n r with _ | ⟨y, ys⟩
      · exact absurd hrest (jsSplitAux_ne_nil sep n r)
      · have hj := ih r
        rw [hrest] at hj
        dsimp only
        rw [hrest]
        show p ++ sep ++ joinSep sep (y :: ys) = s
        rw [hj, ← findSplit_eq_append sep s p r hf]

theorem joinSep_jsSplit (sep s : List Char) : joinSep sep (jsSplit sep s) = s :=
  joinSep_jsSplitAux sep _ s

theorem jsMin_eq (a b : ℚ) : jsMin a b = min a b := by
  rw [jsMin, min_def]

theorem div_mul_hundred (c l : ℚ) : c / l * 100 = 100 * c / l := by
  rw [div_eq_mul_inv, div_eq_mul_inv, mul_right_comm, mul_comm c]

/-- A token that decodes successfully matches the JWS shape, so it contains
no `'%'` and is non-empty. -/
theorem decodeToken_ok_chars (token : List Char)
    (x : Json × CursorTokenPayload × List Char)
    (h : AuthService.decodeToken token = .ok x) : '%' ∉ token ∧ token ≠ [] := by
  rcases hv : AuthService.validateTokenFormat token with e | tk
  · simp [AuthService.decodeToken, hv] at h
  · rcases hsp : jsSplit ['.'] token with _ | ⟨a, _ | ⟨b, _ | ⟨c, _ | ⟨d, rest⟩⟩⟩⟩
    · simp [AuthService.decodeToken, hv, hsp] at h
    · simp [AuthService.decodeToken, hv, hsp] at h
    · simp [AuthService.decodeToken, hv, hsp] at h
    · by_cases hcs :
        (a.all isBase64UrlChar && b.all isBase64UrlChar && c.all isBase64UrlChar) = true
      · have hjoin := joinSep_jsSplit ['.'] token
        rw [hsp] at hjoin
        have hjoin' : a ++ ['.'] ++ (b ++ ['.'] ++ c) = token := hjoin
        obtain ⟨ha, hb, hc⟩ : a.all isBase64UrlChar = true ∧ b.all isBase64UrlChar = true
            ∧ c.all isBase64UrlChar = true := by
          simpa [Bool.and_eq_true, and_assoc] using hcs
        constructor
        · intro hmem
          rw [← hjoin'] at hmem
          simp only [List.mem_append, List.mem_singleton] at hmem
          rcases hmem with (hm | hm) | (hm | hm) | hm
          · exact absurd (List.all_eq_true.mp ha '%' hm) (by decide)
          · cases hm
          · exact absurd (List.all_eq_true.mp hb '%' hm) (by decide)
          · cases hm
          · exact absurd (List.all_eq_true.mp hc '%' hm) (by decide)
        · intro h0
          rw [h0] at hjoin'
          simp [List.append_eq_nil] at hjoin'
      · simp [AuthService.decodeToken, hv, hsp, hcs] at h
    · simp [AuthService.decodeToken, hv, hsp] at h

/-- `validateToken` succeeds only on top of a successful decode. -/
theorem validateToken_ok_decode (now : ℤ) (token : List Char)
    (payload : CursorTokenPayload)
    (h : AuthService.validateToken now token = .ok payload) :
    ∃ x, AuthService.decodeToken token = .ok x := by
  rcases hd : AuthService.decodeToken token with e | x
  · simp [AuthService.validateToken, hd] at h
  · exact ⟨x, rfl⟩

/-- A successfully extracted user id comes from a validated token and is
non-empty (both branches of `extractUserId` test truthiness). -/
theorem extractUserId_ok_parts (now : ℤ) (token u : List Char)
    (h : AuthService.extractUserId now token = .ok u) :
    (∃ payload, AuthService.validateToken now token = .ok payload) ∧ u ≠ [] := by
  rcases hv : AuthService.validateToken now token with e | payload
  · simp [AuthService.extractUserId, hv] at h
  · refine ⟨⟨payload, rfl⟩, ?_⟩
    simp only [AuthService.extractUserId, hv] at h
    have hfall : ∀ hf : (match payload.userId with
        | some uid => if uid.isEmpty then
            Except.error AuthErrorCode.userIdExtractionFailed
          else Except.ok uid
        | none => Except.error AuthErrorCode.userIdExtractionFailed) = Except.ok u,
        u ≠ [] := by
      intro hf
      rcases hui : payload.userId with _ | uid <;> rw [hui] at hf <;> dsimp only at hf
      · cases hf
      · split_ifs at hf with he
        cases hf
        simpa [List.isEmpty_iff] using he
    simp only [exceptBindOk, exceptBindOk'] at h
    split_ifs at h with hc hcond
    · cases h
      simpa [List.isEmpty_iff] using hcond.2
    · exact hfall h
    · exact hfall h

/-! ## Claims -/

/-- **C2** (counterexample): with `limit = 0` the premium utilization of
`updateStats` is `Infinity` (or `NaN` when `current = 0` as well), not the
0 promised by the spec — the division `(current / limit) * 100` is
unguarded. -/
theorem c2_premium_utilization_counterexample :
    premiumPercent 50 0 = JsNum.posInf ∧ premiumPercent 0 0 = JsNum.nan ∧
      premiumPercent 50 0 ≠ JsNum.fin 0 := by
  refine ⟨by with_unfolding_all rfl, by with_unfolding_all rfl, ?_⟩
  intro h
  rw [show premiumPercent 50 0 = JsNum.posInf from by with_unfolding_all rfl] at h
  exact JsNum.noConfusion h

/-- **C2** (amended): for `limit > 0` the premium utilization equals
`round(100 * current / limit)`, unclamped above 100 (e.g. 150% at
`current = 150`, `limit = 100`); for `limit ≤ 0` the computation is not
guarded and yields `Infinity`/`NaN` (at `limit = 0`) rather than 0. -/
theorem c2_premium_utilization_amended :
    (∀ current limit : ℚ, 0 < limit →
        premiumPercent current limit = JsNum.fin (roundHalfUp (100 * current / limit)))
    ∧ premiumPercent 150 100 = JsNum.fin 150 := by
  constructor
  · intro current limit hl
    have hne : limit ≠ 0 := ne_of_gt hl
    simp only [premiumPercent, jsDiv, if_neg hne, jsMulFin, jsRoundNum, JsNum.fin.injEq]
    rw [div_mul_hundred]
  · with_unfolding_all rfl

/-- **C2** (witness). -/
theorem c2_premium_utilization_witness :
    premiumPercent 50 100 = JsNum.fin (roundHalfUp (100 * 50 / 100)) :=
  c2_premium_utilization_amended.1 50 100 (by norm_num)

/-- **C3**: `formatRemainingPercentage` returns `"0"` whenever `limit ≤ 0`,
and otherwise smart-formats `clamp(100 - 100*current/limit, 0, 100)`; in
particular `remainingPercent(50,100) = "50"`, `remainingPercent(0,100) =
"100"` and `remainingPercent(100,0) = "0"`. -/
theorem c3_remaining_percent :
    (∀ current limit : ℚ, limit ≤ 0 → formatRemainingPercentage current limit 3 = "0")
    ∧ (∀ current limit : ℚ, 0 < limit →
        formatRemainingPercentage current limit 3 =
          formatPercentageIntelligent (max 0 (min 100 (100 - 100 * current / limit))) 3)
    ∧ formatRemainingPercentage 50 100 3 = "50"
    ∧ formatRemainingPercentage 0 100 3 = "100"
    ∧ formatRemainingPercentage 100 0 3 = "0" := by
  refine ⟨?_, ?_, by with_unfolding_all rfl, by with_unfolding_all rfl,
    by with_unfolding_all rfl⟩
  · intro current limit hl
    simp only [formatRemainingPercentage, if_pos hl]
  · intro current limit hl
    simp only [formatRemainingPercentage, if_neg (not_le.mpr hl)]
    rw [jsMax_eq, jsMin_eq, div_mul_hundred]

/-- **C3** (witness). -/
theorem c3_remaining_percent_witness :
    formatRemainingPercentage 42 (-7) 3 = "0" :=
  c3_remaining_percent.1 42 (-7) (by norm_num)

/-- The loop of `formatPercentageIntelligent` falls through to
`toFixed(maxDecimals)` when no candidate precision reproduces the value
within tolerance. -/
theorem fpiTryDecimals_fallback (p : ℚ) (maxD : ℕ) (L : List ℕ)
    (h : ∀ d ∈ L, ¬jsAbs (roundToDec p d - p) < 1 / 10 ^ 10) :
    fpiTryDecimals p maxD L = stripTrailingZeros (jsToFixed p maxD) := by
  induction L with
  | nil => rfl
  | cons d ds ih =>
    simp only [fpiTryDecimals]
    rw [if_neg (h d (List.mem_cons_self d ds))]
    exact ih fun d' hd' => h d' (List.mem_cons_of_mem d hd')

/-- The loop of `formatPercentageIntelligent` returns at the first candidate
precision that reproduces the value within tolerance. -/
theorem fpiTryDecimals_first (p : ℚ) (maxD : ℕ) (L₁ L₂ : List ℕ) (d : ℕ)
    (h₁ : ∀ d' ∈ L₁, ¬jsAbs (roundToDec p d' - p) < 1 / 10 ^ 10)
    (hd : jsAbs (roundToDec p d - p) < 1 / 10 ^ 10) :
    fpiTryDecimals p maxD (L₁ ++ d :: L₂) =
      stripTrailingZeros (jsToFixed (roundToDec p d) d) := by
  induction L₁ with
  | nil =>
    simp only [List.nil_append, fpiTryDecimals]
    rw [if_pos hd]
  | cons e es ih =>
    simp only [List.cons_append, fpiTryDecimals]
    rw [if_neg (h₁ e (List.mem_cons_self e es))]
    exact ih fun d' hd' => h₁ d' (List.mem_cons_of_mem e hd')

/-- **C4**: for a non-integer percentage and `maxDecimals ≥ 1`,
`formatPercentageIntelligent` renders the value at the smallest precision
`d ∈ [1, maxDecimals]` whose rounding reproduces the value within `1e-10`
(trailing zeros stripped), and falls back to `maxDecimals` decimals
(trailing zeros stripped) when no such precision exists; in particular
`remainingPercent(67, 201)` at `maxDecimals = 3` is `"66.667"`. -/
theorem c4_smart_format :
    (∀ (p : ℚ) (maxD : ℕ), p ≠ (⌊p⌋ : ℚ) → 1 ≤ maxD →
      (∀ d, 1 ≤ d → d ≤ maxD → ¬jsAbs (roundToDec p d - p) < 1 / 10 ^ 10) →
      formatPercentageIntelligent p maxD = stripTrailingZeros (jsToFixed p maxD))
    ∧ (∀ (p : ℚ) (maxD d : ℕ), p ≠ (⌊p⌋ : ℚ) → 1 ≤ d → d ≤ maxD →
        jsAbs (roundToDec p d - p) < 1 / 10 ^ 10 →
        (∀ d', 1 ≤ d' → d' < d → ¬jsAbs (roundToDec p d' - p) < 1 / 10 ^ 10) →
        formatPercentageIntelligent p maxD =
          stripTrailingZeros (jsToFixed (roundToDec p d) d))
    ∧ formatRemainingPercentage 67 201 3 = "66.667" := by
  refine ⟨?_, ?_, by with_unfolding_all rfl⟩
  · intro p maxD hint _ h
    rw [formatPercentageIntelligent, if_neg hint]
    refine fpiTryDecimals_fallback p maxD _ fun d hd => ?_
    obtain ⟨h₁, h₂⟩ := List.mem_range'_1.mp hd
    exact h d h₁ (by omega)
  · intro p maxD d hint h₁ h₂ htol hmin
    rw [formatPercentageIntelligent, if_neg hint]
    have hsplit :
        List.range' 1 maxD =
          List.range' 1 (d - 1) ++ d :: List.range' (d + 1) (maxD - d) := by
      have happ := List.range'_append 1 (d - 1) (maxD - d + 1) 1
      rw [List.range'_succ] at happ
      have h₃ : 1 + 1 * (d - 1) = d := by omega
      have h₄ : maxD - d + 1 + (d - 1) = maxD := by omega
      rw [h₃, h₄] at happ
      exact happ.symm
    rw [hsplit]
    refine fpiTryDecimals_first p maxD _ _ d (fun d' hd' => ?_) htol
    obtain ⟨hd₁, hd₂⟩ := List.mem_range'_1.mp hd'
    exact hmin d' hd₁ (by omega)

/-- **C4** (witness): `0.5` is reproduced exactly at one decimal, so the loop
returns at precision 1. -/
theorem c4_smart_format_witness :
    formatPercentageIntelligent (1 / 2) 3 =
      stripTrailingZeros (jsToFixed (roundToDec (1 / 2) 1) 1) := by
  refine c4_smart_format.2.1 (1 / 2) 3 1 (by with_unfolding_all decide) (le_refl 1)
    (by norm_num) (by with_unfolding_all decide) fun d' h₁ h₂ => ?_
  omega

/-- A successful token-based match captures the maximal leading digit run as
the request count. -/
theorem tokenBasedMatch_requestCount (desc : List Char) (n : ℕ) (m : List Char)
    (h : tokenBasedMatch desc = some (n, m)) :
    leadingDigits desc ≠ [] ∧ n = digitsVal (leadingDigits desc) := by
  simp only [tokenBasedMatch] at h
  split_ifs at h with h₁ h₂ h₃ h₄ h₅
  cases h
  exact ⟨fun he => h₁ (by simp [he]), rfl⟩

/-- A line classified as a regular usage line does not carry the mid-month
marker. -/
theorem classifyLine_usage_no_marker (it : RawItem) (u : ParsedUsage)
    (h : classifyLine it = .usageLine u) :
    containsSeq midMonthMarker it.description = false := by
  rcases it with ⟨desc, _ | c⟩
  · cases h
  · by_cases hm : containsSeq midMonthMarker desc = true
    · rw [show classifyLine ⟨desc, some c⟩ = .midMonthCredit (c.natAbs : ℤ) from by
        simp [classifyLine, hm]] at h
      cases h
    · simpa using hm

/-- For a marker-free line with cents present, the loop body yields either a
skip or a regular usage line — never a mid-month credit. -/
theorem classifyLine_no_marker_shape (desc : List Char) (c : ℤ)
    (hm : containsSeq midMonthMarker desc = false) :
    classifyLine ⟨desc, some c⟩ = .skip ∨
      ∃ u, classifyLine ⟨desc, some c⟩ = .usageLine u := by
  simp only [classifyLine, hm, Bool.false_eq_true, if_false]
  rcases tokenBasedMatch desc with _ | ⟨n, mo⟩
  · dsimp only
    split_ifs <;> simp
  · dsimp only
    split_ifs <;> simp

/-- **C1** (counterexample): a mid-month payment line *does* appear in the
returned `items` — `fetchMonthData` pushes a special credit line whose
description carries the marker, contradicting "never places a
mid-month-payment line in the resulting items sequence". -/
theorem c1_midmonth_counterexample :
    ∃ e ∈ fetchMonthItems [⟨"Mid-month usage paid: $10.50".toList, some (-1050)⟩],
      containsSeq midMonthMarker e.description = true := by
  refine ⟨⟨"Mid-month usage paid: $10.50".toList, true⟩, by decide, by decide⟩

/-- **C1** (amended): each mid-month line with cents present contributes
exactly one special credit line (carrying its description) to `items` and
never a regular usage line — every non-special entry of `items` is
marker-free — and 100 times the accumulated `midMonthPayment` (dollars)
equals the sum of the absolute cents values of the marker lines. -/
theorem c1_midmonth_amended :
    (∀ (it : RawItem) (c : ℤ), containsSeq midMonthMarker it.description = true →
        it.cents = some c → pushedLines it = [⟨it.description, true⟩])
    ∧ ∀ raws : List RawItem,
        (∀ e ∈ fetchMonthItems raws, e.isMidMonthLine = false →
            containsSeq midMonthMarker e.description = false)
        ∧ 100 * midMonthPaymentDollars raws = (midMonthAbsCentsSum raws : ℚ) := by
  constructor
  · rintro ⟨desc, _ | c⟩ c' hm hc
    · cases hc
    · simp only [Option.some.injEq] at hc
      subst hc
      simp [pushedLines, classifyLine, hm]
  · intro raws
    constructor
    · intro e he hnot
      simp only [fetchMonthItems, List.mem_flatten, List.mem_map] at he
      obtain ⟨_, ⟨it, _, rfl⟩, hmem⟩ := he
      rcases hcl : classifyLine it with _ | a | u <;> rw [pushedLines, hcl] at hmem
      · cases hmem
      · rw [List.mem_singleton] at hmem
        subst hmem
        cases hnot
      · rw [List.mem_singleton] at hmem
        subst hmem
        exact classifyLine_usage_no_marker it u hcl
    · induction raws with
      | nil => simp [midMonthPaymentDollars, midMonthAbsCentsSum]
      | cons it rest ih =>
        simp only [midMonthPaymentDollars, midMonthAbsCentsSum, List.map_cons,
          List.sum_cons] at ih ⊢
        rw [mul_add, ih]
        push_cast
        congr 1
        rcases it with ⟨desc, _ | c⟩
        · have hcl : classifyLine ⟨desc, none⟩ = .skip := rfl
          simp [hcl]
        · by_cases hm : containsSeq midMonthMarker desc = true
          · have hcl : classifyLine ⟨desc, some c⟩ = .midMonthCredit (c.natAbs : ℤ) := by
              simp [classifyLine, hm]
            rw [hcl]
            simp only [hm, if_true]
            push_cast
            ring
          · have hm' : containsSeq midMonthMarker desc = false := by simpa using hm
            rcases classifyLine_no_marker_shape desc c hm' with hcl | ⟨u, hcl⟩ <;>
              simp [hcl, hm']

/-- **C1** (witness). -/
theorem c1_midmonth_witness :
    pushedLines ⟨"Mid-month usage paid".toList, some (-500)⟩ =
      [⟨"Mid-month usage paid".toList, true⟩] :=
  c1_midmonth_amended.1 ⟨"Mid-month usage paid".toList, some (-500)⟩ (-500) (by decide) rfl

/-- **C5** (counterexample): a line with cents present whose description has
no parseable leading integer but carries the mid-month marker is *not*
skipped — it emits the special credit line — refuting the unrestricted
"skipped iff no leading integer or zero request count". -/
theorem c5_skip_counterexample :
    ¬(pushedLines ⟨"Mid-month usage paid: $5.00".toList, some 500⟩ = [] ↔
        (leadingDigits "Mid-month usage paid: $5.00".toList = [] ∨
          digitsVal (leadingDigits "Mid-month usage paid: $5.00".toList) = 0)) := by
  decide

/-- **C5** (amended): for lines with cents present whose description does not
carry the mid-month marker, the line is skipped iff the description has no
leading digit run or that run parses to 0; a zero-cost line with a positive
request count is emitted. -/
theorem c5_skip_amended :
    (∀ (desc : List Char) (c : ℤ), containsSeq midMonthMarker desc = false →
      (pushedLines ⟨desc, some c⟩ = [] ↔
        (leadingDigits desc = [] ∨ digitsVal (leadingDigits desc) = 0)))
    ∧ pushedLines ⟨"5 fast requests".toList, some 0⟩ =
        [⟨"5 fast requests".toList, false⟩] := by
  constructor
  · intro desc c hm
    rcases ht : tokenBasedMatch desc with _ | ⟨n, mo⟩
    · by_cases hds : leadingDigits desc = []
      · have hcl : classifyLine ⟨desc, some c⟩ = .skip := by
          simp [classifyLine, hm, ht, hds]
        simp [pushedLines, hcl, hds]
      · by_cases hv : digitsVal (leadingDigits desc) = 0
        · have hcl : classifyLine ⟨desc, some c⟩ = .skip := by
            simp [classifyLine, hm, ht, List.isEmpty_iff, hds, hv]
          simp [pushedLines, hcl, hv]
        · have hcl : classifyLine ⟨desc, some c⟩ =
              .usageLine ⟨digitsVal (leadingDigits desc), c, none,
                containsSeq "discounted".toList (desc.map Char.toLower)⟩ := by
            simp [classifyLine, hm, ht, List.isEmpty_iff, hds, hv]
          simp [pushedLines, hcl, hds, hv]
    · obtain ⟨hds, hn⟩ := tokenBasedMatch_requestCount desc n mo ht
      by_cases hz : n = 0
      · have hcl : classifyLine ⟨desc, some c⟩ = .skip := by
          simp [classifyLine, hm, ht, hz]
        have hv : digitsVal (leadingDigits desc) = 0 := hn ▸ hz
        simp [pushedLines, hcl, hv]
      · have hcl : classifyLine ⟨desc, some c⟩ =
            .usageLine ⟨n, c, some mo,
              containsSeq "discounted".toList (desc.map Char.toLower)⟩ := by
          simp [classifyLine, hm, ht, hz]
        have hv : digitsVal (leadingDigits desc) ≠ 0 := fun h => hz (hn.symm ▸ h)
        simp [pushedLines, hcl, hds, hv]
  · decide

/-- **C5** (witness). -/
theorem c5_skip_witness :
    pushedLines ⟨"5 fast requests".toList, some (7 : ℤ)⟩ = [] ↔
      (leadingDigits "5 fast requests".toList = [] ∨
        digitsVal (leadingDigits "5 fast requests".toList) = 0) :=
  c5_skip_amended.1 "5 fast requests".toList 7 (by decide)

/-- **C6** (counterexample): a description matching the token-based shape
with leading integer 0 produces *no* item (it is skipped by the
zero-request guard), refuting the unrestricted claim. -/
theorem c6_token_based_counterexample :
    tokenBasedMatch "0 token-based usage calls to gpt-4o, totalling: $0.00".toList =
      some (0, "gpt-4o".toList)
    ∧ classifyLine ⟨"0 token-based usage calls to gpt-4o, totalling: $0.00".toList,
        some 50⟩ = .skip := by
  constructor
  · decide
  · decide

/-- **C6** (amended): a line with cents present whose description matches the
token-based shape with a non-zero captured integer and without the
mid-month marker yields a usage item whose request count is the captured
integer and whose model is the captured token verbatim. -/
theorem c6_token_based_amended :
    ∀ (desc : List Char) (c : ℤ) (n : ℕ) (model : List Char),
      tokenBasedMatch desc = some (n, model) → n ≠ 0 →
      containsSeq midMonthMarker desc = false →
      ∃ u : ParsedUsage, classifyLine ⟨desc, some c⟩ = .usageLine u
        ∧ u.requestCount = n ∧ u.tokenBasedModel = some model := by
  intro desc c n model ht hn hm
  refine ⟨⟨n, c, some model,
    containsSeq "discounted".toList (desc.map Char.toLower)⟩, ?_, rfl, rfl⟩
  simp only [classifyLine]
  rw [if_neg (by simpa using hm), ht]
  dsimp only
  rw [if_neg hn]

/-- **C6** (witness). -/
theorem c6_token_based_witness :
    ∃ u : ParsedUsage,
      classifyLine ⟨"12 token-based usage calls to claude-4-sonnet, totalling: $3.60".toList,
        some (360 : ℤ)⟩ = .usageLine u
      ∧ u.requestCount = 12 ∧ u.tokenBasedModel = some "claude-4-sonnet".toList :=
  c6_token_based_amended
    "12 token-based usage calls to claude-4-sonnet, totalling: $3.60".toList 360 12
    "claude-4-sonnet".toList (by decide) (by decide) (by decide)

/-- **C7**: the usage-based "current" period is this calendar month when the
day-of-month is at least 3 and the previous calendar month otherwise (with
the year rolled back across January), and the "last" period is always the
calendar month immediately before the chosen current period. -/
theorem c7_billing_periods :
    ∀ (m : ℕ) (y : ℤ) (day : ℕ), 1 ≤ m → m ≤ 12 →
      (3 ≤ day → (usageBasedPeriods m y day).1 = (m, y))
      ∧ (day < 3 → (usageBasedPeriods m y day).1 = prevMonth m y)
      ∧ (usageBasedPeriods m y day).2 =
          prevMonth (usageBasedPeriods m y day).1.1 (usageBasedPeriods m y day).1.2 := by
  intro m y day h₁ h₂
  by_cases hd : day < 3
  · by_cases hm : m = 1
    · subst hm
      simp [usageBasedPeriods, prevMonth, hd]
    · have h12 : ¬(m - 1 = 12) := by omega
      refine ⟨fun h => absurd h (by omega), fun _ => ?_, ?_⟩
      · simp [usageBasedPeriods, prevMonth, hd, hm, h12]
      · by_cases hm2 : m - 1 = 1
        · simp [usageBasedPeriods, prevMonth, hd, hm, h12, hm2]
        · simp [usageBasedPeriods, prevMonth, hd, hm, h12, hm2]
  · by_cases hm : m = 1
    · subst hm
      simp [usageBasedPeriods, prevMonth, hd]
    · simp [usageBasedPeriods, prevMonth, hd, hm]

/-- **C7** (witness). -/
theorem c7_billing_periods_witness :
    (usageBasedPeriods 1 2026 2).1 = prevMonth 1 2026 :=
  (c7_billing_periods 1 2026 2 (by norm_num) (by norm_num)).2.1 (by norm_num)

/-- **C8**: within one polling cycle the stats fetch is attempted at most
twice; a second attempt happens exactly when the first fails with HTTP
401/403 and a refreshed credential is obtained, in which case the cycle's
outcome is whatever the retry produces (no further retry); any other error
is surfaced unchanged as the cycle's failure. -/
theorem c8_single_auth_retry :
    ∀ (σ : Type) (env : CycleEnv σ),
      (runFetchCycle env).1 ≤ 2
      ∧ ((runFetchCycle env).1 = 2 ↔
          (∃ e, env.fetchResult 0 = .error e ∧ isAuthFetchError e = true)
            ∧ env.refreshedToken.isSome = true)
      ∧ ((runFetchCycle env).1 = 2 → (runFetchCycle env).2 = env.fetchResult 1)
      ∧ (∀ e, env.fetchResult 0 = .error e → isAuthFetchError e = false →
          runFetchCycle env = (1, .error e)) := by
  intro σ env
  have hcases :
      ∀ goal : Prop,
        ((∀ s, env.fetchResult 0 = .ok s → goal) →
         (∀ e, env.fetchResult 0 = .error e → isAuthFetchError e = false → goal) →
         (∀ e, env.fetchResult 0 = .error e → isAuthFetchError e = true →
            env.refreshedToken = none → goal) →
         (∀ e tok, env.fetchResult 0 = .error e → isAuthFetchError e = true →
            env.refreshedToken = some tok → goal) → goal) := by
    intro goal hok hnon hnotok htok
    rcases h₀ : env.fetchResult 0 with e | s
    · cases ha : isAuthFetchError e
      · exact hnon e h₀ ha
      · rcases hr : env.refreshedToken with _ | tok
        · exact hnotok e h₀ ha hr
        · exact htok e tok h₀ ha hr
    · exact hok s h₀
  refine ⟨?_, ?_, ?_, ?_⟩
  · refine hcases _ ?_ ?_ ?_ ?_
    · intro s h₀
      simp [runFetchCycle, h₀]
    · intro e h₀ ha
      simp [runFetchCycle, h₀, ha]
    · intro e h₀ ha hr
      simp [runFetchCycle, h₀, ha, hr]
    · intro e tok h₀ ha hr
      simp [runFetchCycle, h₀, ha, hr]
  · constructor
    · refine hcases _ ?_ ?_ ?_ ?_
      · intro s h₀ h2
        rw [show (runFetchCycle env).1 = 1 from by simp [runFetchCycle, h₀]] at h2
        exact absurd h2 (by norm_num)
      · intro e h₀ ha h2
        rw [show (runFetchCycle env).1 = 1 from by simp [runFetchCycle, h₀, ha]] at h2
        exact absurd h2 (by norm_num)
      · intro e h₀ ha hr h2
        rw [show (runFetchCycle env).1 = 1 from by simp [runFetchCycle, h₀, ha, hr]] at h2
        exact absurd h2 (by norm_num)
      · intro e tok h₀ ha hr _
        exact ⟨⟨e, h₀, ha⟩, by simp [hr]⟩
    · rintro ⟨⟨e, he, hae⟩, hr⟩
      obtain ⟨tok, htok⟩ := Option.isSome_iff_exists.mp hr
      simp [runFetchCycle, he, hae, htok]
  · refine hcases _ ?_ ?_ ?_ ?_
    · intro s h₀ h2
      rw [show (runFetchCycle env).1 = 1 from by simp [runFetchCycle, h₀]] at h2
      exact absurd h2 (by norm_num)
    · intro e h₀ ha h2
      rw [show (runFetchCycle env).1 = 1 from by simp [runFetchCycle, h₀, ha]] at h2
      exact absurd h2 (by norm_num)
    · intro e h₀ ha hr h2
      rw [show (runFetchCycle env).1 = 1 from by simp [runFetchCycle, h₀, ha, hr]] at h2
      exact absurd h2 (by norm_num)
    · intro e tok h₀ ha hr _
      simp [runFetchCycle, h₀, ha, hr]
  · intro e he hna
    simp [runFetchCycle, he, hna]

/-- **C8** (witness): a non-auth failure (HTTP 500) is surfaced after a
single fetch call. -/
theorem c8_single_auth_retry_witness :
    runFetchCycle (⟨fun _ => .error ⟨some 500⟩, none⟩ : CycleEnv Unit) =
      ((1 : ℕ), .error (⟨some 500⟩ : FetchError)) :=
  (c8_single_auth_retry Unit ⟨fun _ => .error ⟨some 500⟩, none⟩).2.2.2 ⟨some 500⟩ rfl rfl

/-- **C9**: a successful fetch always leaves the consecutive-error counter at
0 with the cooldown cleared, restarting the refresh interval exactly when a
cooldown was pending (polling resumes immediately); a failed cycle
increments the counter by exactly one; with threshold 3 the cooldown start
is recorded on the third consecutive failure and not before, and a success
at any earlier point resets the counter to 0. -/
theorem c9_cooldown_transitions :
    ∀ (s : CooldownState) (threshold : ℕ) (now : ℤ),
      (onSuccessfulFetch s).1.consecutiveErrorCount = 0
      ∧ (onSuccessfulFetch s).1.cooldownStartedAt = none
      ∧ (onSuccessfulFetch s).2 = s.cooldownStartedAt.isSome
      ∧ (onFailedFetch threshold now s).consecutiveErrorCount = s.consecutiveErrorCount + 1
      ∧ (onFailedFetch 3 now ⟨0, none⟩).cooldownStartedAt = none
      ∧ (onFailedFetch 3 now (onFailedFetch 3 now ⟨0, none⟩)).cooldownStartedAt = none
      ∧ (onFailedFetch 3 now (onFailedFetch 3 now (onFailedFetch 3 now
          ⟨0, none⟩))).cooldownStartedAt = some now
      ∧ (onSuccessfulFetch (onFailedFetch 3 now (onFailedFetch 3 now
          ⟨0, none⟩))).1.consecutiveErrorCount = 0 := by
  intro s threshold now
  obtain ⟨c, cd⟩ := s
  refine ⟨?_, ?_, ?_, by simp [onFailedFetch, incrementConsecutiveErrorCount],
    by simp [onFailedFetch, incrementConsecutiveErrorCount],
    by simp [onFailedFetch, incrementConsecutiveErrorCount],
    by simp [onFailedFetch, incrementConsecutiveErrorCount],
    by simp [onFailedFetch, incrementConsecutiveErrorCount, onSuccessfulFetch,
      resetConsecutiveErrorCount]⟩
  · rcases cd with _ | t
    · by_cases hc : 0 < c
      · simp [onSuccessfulFetch, hc, resetConsecutiveErrorCount]
      · simp only [not_lt, Nat.le_zero] at hc
        subst hc
        simp [onSuccessfulFetch, resetConsecutiveErrorCount]
    · simp [onSuccessfulFetch, resetConsecutiveErrorCount, setCooldownStartTime]
  · rcases cd with _ | t
    · by_cases hc : 0 < c
      · simp [onSuccessfulFetch, hc, resetConsecutiveErrorCount]
      · simp only [not_lt, Nat.le_zero] at hc
        subst hc
        simp [onSuccessfulFetch, resetConsecutiveErrorCount]
    · simp [onSuccessfulFetch, resetConsecutiveErrorCount, setCooldownStartTime]
  · rcases cd with _ | t
    · by_cases hc : 0 < c
      · simp [onSuccessfulFetch, hc, resetConsecutiveErrorCount]
      · simp only [not_lt, Nat.le_zero] at hc
        subst hc
        simp [onSuccessfulFetch, resetConsecutiveErrorCount]
    · simp [onSuccessfulFetch, resetConsecutiveErrorCount, setCooldownStartTime]

/-- A JWT (header `{"alg":"HS256","typ":"JWT"}`) whose payload is
`{"sub":"auth0|a%3A%3Ab"}` — a well-formed token whose extracted user id
contains the session-token separator. -/
def cexJwt : List Char :=
  "eyJhbGciOiJIUzI1NiIsInR5cCI6IkpXVCJ9.eyJzdWIiOiJhdXRoMHxhJTNBJTNBYiJ9.sig".toList

/-- A JWT with payload `{"sub":"auth0|user123"}`, whose extracted user id is
separator-free. -/
def goodJwt : List Char :=
  "eyJhbGciOiJIUzI1NiIsInR5cCI6IkpXVCJ9.eyJzdWIiOiJhdXRoMHx1c2VyMTIzIn0.sig".toList

/-- **C10** (counterexample): for the token `cexJwt`, `extractUserId`
succeeds with user id `a%3A%3Ab` and `createSessionToken` succeeds, but
`validateSessionToken` on the resulting session token fails (the embedded
separator makes the split yield three parts), so the round trip does not
hold for every token on which `extractUserId` succeeds. -/
theorem c10_session_roundtrip_counterexample :
    AuthService.extractUserId 0 cexJwt = .ok "a%3A%3Ab".toList
    ∧ AuthService.createSessionToken 0 cexJwt =
        .ok ("a%3A%3Ab".toList ++ AuthService.sessionSeparator ++ cexJwt)
    ∧ (AuthService.validateSessionToken 0
        ("a%3A%3Ab".toList ++ AuthService.sessionSeparator ++ cexJwt)).toOption = none := by
  refine ⟨?_, ?_, ?_⟩ <;> with_unfolding_all rfl

/-- **C10** (amended): for every token from which `extractUserId` succeeds
with a user id `u` that does not contain `%3A%3A` and does not end in
`%3A`, `createSessionToken` returns `u ++ "%3A%3A" ++ token` and
`validateSessionToken` on that session token returns exactly `(u, token)`
(the token side needs no assumption: a decodable JWT is made of base64url
characters and dots, so it cannot contain `%`). -/
theorem c10_session_roundtrip_amended :
    ∀ (now : ℤ) (token u : List Char),
      AuthService.extractUserId now token = .ok u →
      containsSeq AuthService.sessionSeparator u = false →
      List.isSuffixOf "%3A".toList u = false →
      AuthService.createSessionToken now token =
          .ok (u ++ AuthService.sessionSeparator ++ token)
      ∧ AuthService.validateSessionToken now
          (u ++ AuthService.sessionSeparator ++ token) = .ok (u, token) := by
  intro now token u hex h₁ h₂
  obtain ⟨⟨payload, hval⟩, hu⟩ := extractUserId_ok_parts now token u hex
  obtain ⟨x, hdec⟩ := validateToken_ok_decode now token payload hval
  obtain ⟨hmem, htok⟩ := decodeToken_ok_chars token x hdec
  refine ⟨by simp [AuthService.createSessionToken, hex], ?_⟩
  have hsep : AuthService.sessionSeparator ≠ [] := by decide
  have hsp := jsSplit_around u token h₁ h₂ hmem
  rw [AuthService.validateSessionToken, if_neg ?hne]
  case hne =>
    intro habs
    rw [List.isEmpty_iff, List.append_eq_nil, List.append_eq_nil] at habs
    exact hsep habs.1.2
  rw [hsp]
  rw [if_neg (by norm_num)]
  simp only [List.getD_cons_zero, List.getD_cons_succ]
  rw [if_neg ?hparts]
  case hparts =>
    intro habs
    rcases habs with habs | habs
    · exact hu (List.isEmpty_iff.mp habs)
    · exact htok (List.isEmpty_iff.mp habs)
  rw [hval]
  rfl

/-- **C10** (witness): the round trip at a concrete separator-free token. -/
theorem c10_session_roundtrip_witness :
    AuthService.createSessionToken 0 goodJwt =
        .ok ("user123".toList ++ AuthService.sessionSeparator ++ goodJwt)
    ∧ AuthService.validateSessionToken 0
        ("user123".toList ++ AuthService.sessionSeparator ++ goodJwt) =
        .ok ("user123".toList, goodJwt) :=
  c10_session_roundtrip_amended 0 goodJwt "user123".toList
    (by with_unfolding_all rfl) (by decide) (by decide)

end CursorStats
